import Mathlib

/-!
Verification of the transaction consensus codec from
`transaction_decoder_22/src/transaction.rs`: the data model, the
`Encodable`/`Decodable` implementations, the txid derivation and the
presentation adapter are embedded as executable Lean functions, and the
specification's claims about them are settled as theorems.

Modelling conventions:
- machine integers are `Nat` with explicit reductions modulo 2^w where the
  source truncates; a byte stream is a `List Nat` and every byte read from
  it is reduced modulo 256, matching the `u8` type of the source reader;
- the in-memory `Vec<u8>` writer never fails, so encoders are pure
  functions returning the written bytes; the one encoder panic site
  (`hex::decode(self).expect(..)` in `Encodable for String`) is modelled
  by an `Option` result whose `none` stands for the panic;
- fallible decoding is `Except Error (value × remaining stream)`;
- the collaborator crates `hex` and `sha2` are modelled from their
  documented behaviour (lowercase hex encoding, case-insensitive decoding
  of byte pairs; FIPS 180-4 SHA-256).
-/

namespace BitcoinTx

/-- Byte streams are lists of naturals; a value is reduced modulo 256 at
the point where the source reads it into a `u8` buffer. -/
abbrev ByteStream := List Nat

/-! ## Hex collaborator model (`hex` crate) -/

/-- Numeric value of one hexadecimal digit character; both letter cases
are accepted, as in the value table of the hex crate's decoder. -/
def hexDigitVal (c : Char) : Option Nat :=
  if ('0' ≤ c ∧ c ≤ '9') then some (c.toNat - 48)
  else if ('a' ≤ c ∧ c ≤ 'f') then some (c.toNat - 87)
  else if ('A' ≤ c ∧ c ≤ 'F') then some (c.toNat - 55)
  else none

/-- Decoding of a character list two digits at a time; an odd-length list
or a non-digit character fails, as `hex::decode` does. -/
def hexPairs : List Char → Option (List Nat)
  | [] => some []
  | [_] => none
  | c1 :: c2 :: rest =>
    match hexDigitVal c1, hexDigitVal c2, hexPairs rest with
    | some hi, some lo, some tl => some ((hi * 16 + lo) :: tl)
    | _, _, _ => none

/-- Model of `hex::decode`: hex text to bytes. -/
def hexDecode (s : String) : Option (List Nat) := hexPairs s.data

/-- Lowercase hexadecimal digit character for a nibble. -/
def hexDigitChar (n : Nat) : Char :=
  if n < 10 then Char.ofNat (48 + n) else Char.ofNat (87 + n)

/-- Character list of the lowercase hex encoding of a byte list, two
digits per byte, high nibble first. -/
def hexEncodeChars : List Nat → List Char
  | [] => []
  | b :: rest => hexDigitChar (b % 256 / 16) :: hexDigitChar (b % 16) :: hexEncodeChars rest

/-- Model of `hex::encode`: bytes to lowercase hex text. -/
def hexEncode (bs : List Nat) : String := ⟨hexEncodeChars bs⟩

/-! ## SHA-256 collaborator model (`sha2` crate, FIPS 180-4) -/

/-- Reduction to a 32-bit word. -/
def w32 (x : Nat) : Nat := x % 4294967296

/-- Right rotation of a 32-bit word. -/
def rotr32 (n x : Nat) : Nat := w32 ((x >>> n) ||| (x <<< (32 - n)))

/-- Choice function of the SHA-256 round. -/
def shaCh (x y z : Nat) : Nat := (x &&& y) ^^^ ((x ^^^ 0xFFFFFFFF) &&& z)

/-- Majority function of the SHA-256 round. -/
def shaMaj (x y z : Nat) : Nat := (x &&& y) ^^^ (x &&& z) ^^^ (y &&& z)

/-- Big sigma-0 of SHA-256. -/
def bigSigma0 (x : Nat) : Nat := rotr32 2 x ^^^ rotr32 13 x ^^^ rotr32 22 x

/-- Big sigma-1 of SHA-256. -/
def bigSigma1 (x : Nat) : Nat := rotr32 6 x ^^^ rotr32 11 x ^^^ rotr32 25 x

/-- Small sigma-0 of the SHA-256 message schedule. -/
def smlSigma0 (x : Nat) : Nat := rotr32 7 x ^^^ rotr32 18 x ^^^ (x >>> 3)

/-- Small sigma-1 of the SHA-256 message schedule. -/
def smlSigma1 (x : Nat) : Nat := rotr32 17 x ^^^ rotr32 19 x ^^^ (x >>> 10)

/-- Round constants of SHA-256. -/
def shaK : List Nat :=
  [1116352408, 1899447441, 3049323471, 3921009573, 961987163, 1508970993,
   2453635748, 2870763221, 3624381080, 310598401, 607225278, 1426881987,
   1925078388, 2162078206, 2614888103, 3248222580, 3835390401, 4022224774,
   264347078, 604807628, 770255983, 1249150122, 1555081692, 1996064986,
   2554220882, 2821834349, 2952996808, 3210313671, 3336571891, 3584528711,
   113926993, 338241895, 666307205, 773529912, 1294757372, 1396182291,
   1695183700, 1986661051, 2177026350, 2456956037, 2730485921, 2820302411,
   3259730800, 3345764771, 3516065817, 3600352804, 4094571909, 275423344,
   430227734, 506948616, 659060556, 883997877, 958139571, 1322822218,
   1537002063, 1747873779, 1955562222, 2024104815, 2227730452, 2361852424,
   2428436474, 2756734187, 3204031479, 3329325298]

/-- Initial hash state of SHA-256. -/
def shaInitH : List Nat :=
  [1779033703, 3144134277, 1013904242, 2773480762,
   1359893119, 2600822924, 528734635, 1541459225]

/-- Little-endian byte decomposition of a value into `w` bytes. -/
def toLe : Nat → Nat → List Nat
  | 0, _ => []
  | w + 1, v => v % 256 :: toLe w (v / 256)

/-- Big-endian byte decomposition of a value into `w` bytes. -/
def toBe (w v : Nat) : List Nat := (toLe w v).reverse

/-- Big-endian 32-bit words of a byte list, as in the SHA-256 block. -/
def beWords : List Nat → List Nat
  | b0 :: b1 :: b2 :: b3 :: rest => (((b0 * 256 + b1) * 256 + b2) * 256 + b3) :: beWords rest
  | _ => []

/-- Extension of a message schedule by the given number of further words. -/
def extendSchedule (w : List Nat) : Nat → List Nat
  | 0 => w
  | r + 1 =>
    let n := w.length
    extendSchedule
      (w ++ [w32 (smlSigma1 (w.getD (n - 2) 0) + w.getD (n - 7) 0 +
                  smlSigma0 (w.getD (n - 15) 0) + w.getD (n - 16) 0)]) r

/-- One SHA-256 compression round on the eight-word working state. -/
def shaRound (st : List Nat) (kw : Nat) : List Nat :=
  match st with
  | [a, b, c, d, e, f, g, h] =>
    let t1 := w32 (h + bigSigma1 e + shaCh e f g + kw)
    let t2 := w32 (bigSigma0 a + shaMaj a b c)
    [w32 (t1 + t2), a, b, c, w32 (d + t1), e, f, g]
  | other => other

/-- Compression of one 64-byte chunk into the hash state. -/
def shaCompress (hs : List Nat) (chunk : List Nat) : List Nat :=
  let w := extendSchedule (beWords chunk) 48
  let kw := List.zipWith (fun k wi => w32 (k + wi)) shaK w
  let st := kw.foldl shaRound hs
  List.zipWith (fun x y => w32 (x + y)) hs st

/-- Iterated compression over consecutive 64-byte chunks. -/
def processChunks (hs : List Nat) (msg : List Nat) : List Nat :=
  match msg with
  | [] => hs
  | b :: rest => processChunks (shaCompress hs (b :: List.take 63 rest)) (List.drop 63 rest)
termination_by msg.length
decreasing_by simp [List.length_drop]; omega

/-- Merkle-Damgard padding of SHA-256: a 0x80 byte, zeros to 56 mod 64,
then the bit length as a big-endian 64-bit integer. -/
def shaPad (msg : List Nat) : List Nat :=
  msg ++ 0x80 :: List.replicate ((119 - msg.length % 64) % 64) 0 ++ toBe 8 (msg.length * 8)

/-- Model of SHA-256 over a byte list, producing the 32 digest bytes. -/
def sha256 (msg : List Nat) : List Nat :=
  (processChunks shaInitH (shaPad (msg.map (fun b => b % 256)))).foldr
    (fun wv acc => toBe 4 wv ++ acc) []

/-! ## Data model (`transaction.rs`) -/

/-- Error taxonomy of the codec. The source wraps reader failures as
`Error::Io(e)`; over an in-memory buffer the only reader failure is an
unexpected end of stream, modelled as `truncated`. -/
inductive Error where
  | truncated : Error
  | parseFailed : String → Error
  | unsupportedSegwitFlag : Nat → Error
deriving DecidableEq, Repr

/-- Decidable equality of decode results, for evaluating the codec on
concrete inputs. -/
instance {ε α : Type} [DecidableEq ε] [DecidableEq α] : DecidableEq (Except ε α) :=
  fun x y =>
  match x, y with
  | .ok a, .ok b => if h : a = b then .isTrue (by rw [h]) else .isFalse (by simp [h])
  | .error a, .error b => if h : a = b then .isTrue (by rw [h]) else .isFalse (by simp [h])
  | .ok _, .error _ => .isFalse (by simp)
  | .error _, .ok _ => .isFalse (by simp)

/-- A transaction identifier: 32 raw bytes, stored in wire order. -/
structure Txid where
  bytes : List Nat
deriving DecidableEq, Repr

/-- A per-input witness: an ordered stack of opaque byte strings. -/
structure Witness where
  content : List (List Nat)
deriving DecidableEq, Repr

/-- Model of `Witness::new`: the empty stack. -/
def Witness.new : Witness := ⟨[]⟩

/-- Model of `Witness::is_empty`. -/
def Witness.is_empty (w : Witness) : Bool := w.content.isEmpty

/-- A transaction input; the script is kept as hex text, as the source
stores it in a `String` produced by `hex::encode`. -/
structure TxIn where
  previous_txid : Txid
  previous_vout : Nat
  script_sig : String
  sequence : Nat
  witness : Witness
deriving DecidableEq, Repr

/-- Amount in satoshi (`Amount(u64)` in the source). -/
structure Amount where
  sat : Nat
deriving DecidableEq, Repr

/-- A transaction output. -/
structure TxOut where
  amount : Amount
  script_pubkey : String
deriving DecidableEq, Repr

/-- The transaction record. -/
structure Transaction where
  version : Nat
  inputs : List TxIn
  outputs : List TxOut
  lock_time : Nat
deriving DecidableEq, Repr

/-! ## Encoders (`Encodable` implementations)

Each encoder returns the bytes it writes; the source returns the byte
count and appends to a `Vec<u8>`, whose writes cannot fail. -/

/-- Model of `Encodable for u8`. -/
def encodeU8 (v : Nat) : List Nat := toLe 1 v

/-- Model of `Encodable for u16` (`to_le_bytes`). -/
def encodeU16 (v : Nat) : List Nat := toLe 2 v

/-- Model of `Encodable for u32` (`to_le_bytes`). -/
def encodeU32 (v : Nat) : List Nat := toLe 4 v

/-- Model of `Encodable for u64` (`to_le_bytes`). -/
def encodeU64 (v : Nat) : List Nat := toLe 8 v

/-- Model of `Encodable for CompactSize`: the narrowest of the four
forms, chosen by the range patterns of the source match. -/
def encodeCompactSize (v : Nat) : List Nat :=
  if v ≤ 0xFC then encodeU8 v
  else if v ≤ 0xFFFF then 0xFD :: encodeU16 v
  else if v ≤ 0xFFFFFFFF then 0xFE :: encodeU32 v
  else 0xFF :: encodeU64 v

/-- Model of `Encodable for String`: hex-decode the script text (the
source panics through `expect` on invalid hex, modelled as `none`), then
write the byte length as a CompactSize followed by the bytes. -/
def encodeString (str : String) : Option (List Nat) :=
  match hexDecode str with
  | some b => some (encodeCompactSize b.length ++ b)
  | none => none

/-- Model of `Encodable for Txid`: the 32 raw bytes. -/
def Txid.consensus_encode (id : Txid) : List Nat := id.bytes

/-- Model of `Encodable for TxIn`: previous txid, previous vout, script,
sequence; the witness field is never written. -/
def TxIn.consensus_encode (i : TxIn) : Option (List Nat) :=
  match encodeString i.script_sig with
  | some sb => some (i.previous_txid.consensus_encode ++ encodeU32 i.previous_vout ++
      sb ++ encodeU32 i.sequence)
  | none => none

/-- Concatenated encoding of a list of fallibly encodable items. -/
def encodeList {α : Type} (enc : α → Option (List Nat)) : List α → Option (List Nat)
  | [] => some []
  | a :: rest =>
    match enc a, encodeList enc rest with
    | some b, some bs => some (b ++ bs)
    | _, _ => none

/-- Model of `Encodable for Vec<TxIn>`: CompactSize count then each
input in order. -/
def encodeVecTxIn (l : List TxIn) : Option (List Nat) :=
  match encodeList TxIn.consensus_encode l with
  | some body => some (encodeCompactSize l.length ++ body)
  | none => none

/-- Model of `Encodable for TxOut`: amount then script. -/
def TxOut.consensus_encode (o : TxOut) : Option (List Nat) :=
  match encodeString o.script_pubkey with
  | some sb => some (encodeU64 o.amount.sat ++ sb)
  | none => none

/-- Model of `Encodable for Vec<TxOut>`: CompactSize count then each
output in order. -/
def encodeVecTxOut (l : List TxOut) : Option (List Nat) :=
  match encodeList TxOut.consensus_encode l with
  | some body => some (encodeCompactSize l.length ++ body)
  | none => none

/-- The byte buffer assembled by `Transaction::txid`: version, inputs in
legacy form, outputs, lock time, in that order. `none` models a panic of
one of the `unwrap`/`expect` calls on that path. -/
def Transaction.txid_data (t : Transaction) : Option (List Nat) :=
  match encodeVecTxIn t.inputs, encodeVecTxOut t.outputs with
  | some ins, some outs =>
    some (encodeU32 t.version ++ ins ++ outs ++ encodeU32 t.lock_time)
  | _, _ => none

/-- Model of `Txid::new`: double SHA-256 of the data, the second hash
taken over the raw 32-byte output of the first, stored with no
byte-order change. -/
def Txid.new (data : List Nat) : Txid := ⟨sha256 (sha256 data)⟩

/-- Model of `Transaction::txid`: hash the legacy-only serialization. -/
def Transaction.txid (t : Transaction) : Option Txid :=
  (t.txid_data).map Txid.new

/-- Legacy-only whole-transaction encoding, as the concatenation written
by the four `consensus_encode` calls of `Transaction::txid`. -/
def Transaction.consensus_encode_legacy (t : Transaction) : Option (List Nat) :=
  t.txid_data

/-! ## Decoders (`Decodable` implementations)

A decoder consumes a prefix of the stream and returns the value with the
remaining stream, or an `Error`. -/

/-- Model of `Read::read_exact` over an in-memory buffer: take `n` bytes
if at least `n` remain, reducing each to a `u8`, else fail as the reader
does at end of stream. -/
def read_exact (n : Nat) (s : ByteStream) : Except Error (List Nat × ByteStream) :=
  if n ≤ s.length then .ok ((s.take n).map (fun b => b % 256), s.drop n)
  else .error .truncated

/-- Little-endian value of a byte list (`from_le_bytes`). -/
def fromLe : List Nat → Nat
  | [] => 0
  | b :: rest => b + 256 * fromLe rest

/-- Model of `Decodable for u8`. -/
def decodeU8 (s : ByteStream) : Except Error (Nat × ByteStream) := do
  let (bs, s) ← read_exact 1 s
  pure (fromLe bs, s)

/-- Model of `Decodable for u16`. -/
def decodeU16 (s : ByteStream) : Except Error (Nat × ByteStream) := do
  let (bs, s) ← read_exact 2 s
  pure (fromLe bs, s)

/-- Model of `Decodable for u32`. -/
def decodeU32 (s : ByteStream) : Except Error (Nat × ByteStream) := do
  let (bs, s) ← read_exact 4 s
  pure (fromLe bs, s)

/-- Model of `Decodable for u64`. -/
def decodeU64 (s : ByteStream) : Except Error (Nat × ByteStream) := do
  let (bs, s) ← read_exact 8 s
  pure (fromLe bs, s)

/-- Model of `Decodable for CompactSize`: one marker byte, then by its
value a wider little-endian integer or the byte itself; no minimality
check on the wider forms. -/
def decodeCompactSize (s : ByteStream) : Except Error (Nat × ByteStream) := do
  let (n, s) ← decodeU8 s
  if n = 0xFF then decodeU64 s
  else if n = 0xFE then decodeU32 s
  else if n = 0xFD then decodeU16 s
  else pure (n, s)

/-- Model of `Decodable for String`: CompactSize length, then that many
bytes, returned as their lowercase hex encoding. -/
def decodeString (s : ByteStream) : Except Error (String × ByteStream) := do
  let (len, s) ← decodeCompactSize s
  let (buf, s) ← read_exact len s
  pure (hexEncode buf, s)

/-- Model of `Decodable for Txid`: 32 raw bytes. -/
def decodeTxid (s : ByteStream) : Except Error (Txid × ByteStream) := do
  let (buf, s) ← read_exact 32 s
  pure (⟨buf⟩, s)

/-- Model of `Decodable for TxIn`: txid, vout, script, sequence; the
witness field is initialized empty. -/
def decodeTxIn (s : ByteStream) : Except Error (TxIn × ByteStream) := do
  let (id, s) ← decodeTxid s
  let (vout, s) ← decodeU32 s
  let (script, s) ← decodeString s
  let (seq, s) ← decodeU32 s
  pure ({ previous_txid := id, previous_vout := vout, script_sig := script,
          sequence := seq, witness := Witness.new }, s)

/-- Counted repetition of a decoder, as the `for _ in 0..len` loops of
the source sequence decoders. -/
def decodeCount {α : Type} (dec : ByteStream → Except Error (α × ByteStream)) :
    Nat → ByteStream → Except Error (List α × ByteStream)
  | 0, s => .ok ([], s)
  | n + 1, s => do
    let (a, s) ← dec s
    let (rest, s) ← decodeCount dec n s
    pure (a :: rest, s)

/-- Model of `Decodable for Vec<TxIn>`: CompactSize count then that many
inputs. -/
def decodeVecTxIn (s : ByteStream) : Except Error (List TxIn × ByteStream) := do
  let (len, s) ← decodeCompactSize s
  decodeCount decodeTxIn len s

/-- Model of `Decodable for TxOut`: amount then script. -/
def decodeTxOut (s : ByteStream) : Except Error (TxOut × ByteStream) := do
  let (amt, s) ← decodeU64 s
  let (script, s) ← decodeString s
  pure ({ amount := ⟨amt⟩, script_pubkey := script }, s)

/-- Model of `Decodable for Vec<TxOut>`: CompactSize count then that many
outputs. -/
def decodeVecTxOut (s : ByteStream) : Except Error (List TxOut × ByteStream) := do
  let (len, s) ← decodeCompactSize s
  decodeCount decodeTxOut len s

/-- One witness stack entry: CompactSize length then that many bytes. -/
def decodeWitnessItem (s : ByteStream) : Except Error (List Nat × ByteStream) := do
  let (len, s) ← decodeCompactSize s
  read_exact len s

/-- Model of `Decodable for Witness`: a single-byte item count, then that
many length-prefixed entries. -/
def decodeWitness (s : ByteStream) : Except Error (Witness × ByteStream) := do
  let (count, s) ← decodeU8 s
  let (items, s) ← decodeCount decodeWitnessItem count s
  pure (⟨items⟩, s)

/-- Witness-filling loop of the segwit branch: for every input in order,
decode one witness section and store it in that input. -/
def assignWitnesses : List TxIn → ByteStream → Except Error (List TxIn × ByteStream)
  | [], s => .ok ([], s)
  | i :: is, s => do
    let (w, s) ← decodeWitness s
    let (rest, s) ← assignWitnesses is s
    pure ({ i with witness := w } :: rest, s)

/-- Model of `Decodable for Transaction`: version, an input sequence,
then the legacy path if it is non-empty, else one marker byte selecting
the segwit path (only marker 1 is supported), with the all-empty-witness
check before the lock time read. -/
def Transaction.consensus_decode (s : ByteStream) :
    Except Error (Transaction × ByteStream) := do
  let (version, s) ← decodeU32 s
  let (inputs, s) ← decodeVecTxIn s
  if inputs.isEmpty then do
    let (segwit_flag, s) ← decodeU8 s
    if segwit_flag = 1 then do
      let (inputs, s) ← decodeVecTxIn s
      let (outputs, s) ← decodeVecTxOut s
      let (inputs, s) ← assignWitnesses inputs s
      if ¬inputs.isEmpty ∧ inputs.all (fun i => i.witness.is_empty) then
        .error (.parseFailed ("witness flag set but no witnesses present"))
      else do
        let (lock_time, s) ← decodeU32 s
        pure ({ version := version, inputs := inputs, outputs := outputs,
                lock_time := lock_time }, s)
    else .error (.unsupportedSegwitFlag segwit_flag)
  else do
    let (outputs, s) ← decodeVecTxOut s
    let (lock_time, s) ← decodeU32 s
    pure ({ version := version, inputs := inputs, outputs := outputs,
            lock_time := lock_time }, s)

/-! ## Presentation adapter (`Serialize` implementations) -/

/-- Field tree produced by the text-interchange serializer. -/
inductive JValue where
  | str : String → JValue
  | num : Nat → JValue
  | arr : List JValue → JValue
  | obj : List (String × JValue) → JValue

/-- Model of `Serialize for Txid`: hex of the bytes in reversed order. -/
def Txid.serialize (id : Txid) : JValue := .str (hexEncode id.bytes.reverse)

/-- Model of `Serialize for Witness`: the stack as an array of hex
strings. -/
def Witness.serialize (w : Witness) : JValue :=
  .arr (w.content.map (fun e => .str (hexEncode e)))

/-- Model of `Serialize for TxIn`: txid, vout, then `scriptSig` when the
witness is empty and `txinwitness` otherwise, then sequence. -/
def TxIn.serialize (i : TxIn) : JValue :=
  .obj ([("txid", i.previous_txid.serialize), ("vout", .num i.previous_vout)] ++
    (if i.witness.is_empty then [("scriptSig", .str i.script_sig)]
     else [("txinwitness", i.witness.serialize)]) ++
    [("sequence", .num i.sequence)])

/-- Keys of a serialized object. -/
def JValue.keys : JValue → List String
  | .obj fields => fields.map (fun f => f.1)
  | _ => []

/-- Value stored under a key of a serialized object. -/
def JValue.lookup (key : String) : JValue → Option JValue
  | .obj fields => (fields.find? (fun f => f.1 = key)).map (fun f => f.2)
  | _ => none

/-! ## Allocation model for the length-prefixed reads

`Decodable for String` and the witness-item loop run
`vec![0; len as usize]` as soon as the CompactSize prefix has been
decoded, before `read_exact` compares the requested length with the
remaining input. The size of that allocation is a function of the stream
alone. -/

/-- Size of the buffer `Decodable for String` allocates before its
`read_exact` call: the decoded CompactSize prefix, whenever that prefix
itself decodes, regardless of how many bytes remain. -/
def stringDecodeAllocation (s : ByteStream) : Option Nat :=
  match decodeCompactSize s with
  | .ok (len, _) => some len
  | .error _ => none

/-- Remaining stream after the CompactSize prefix, for comparing the
allocation size with the bytes actually available. -/
def streamAfterCompactSize (s : ByteStream) : Option ByteStream :=
  match decodeCompactSize s with
  | .ok (_, rest) => some rest
  | .error _ => none

/-! ## Helper lemmas: bytes, bind, hex -/

/-- Binding a successful decode step applies the continuation. -/
theorem ok_bind {ε α β : Type} (a : α) (f : α → Except ε β) :
    (Except.ok a >>= f) = f a := rfl

/-- Binding a failed decode step propagates the error. -/
theorem error_bind {ε α β : Type} (e : ε) (f : α → Except ε β) :
    ((Except.error e : Except ε α) >>= f) = .error e := rfl

/-- Little-endian decomposition has the requested width. -/
theorem toLe_length (w v : Nat) : (toLe w v).length = w := by
  induction w generalizing v with
  | zero => rfl
  | succ w ih => simp [toLe, ih]

/-- Every byte of a little-endian decomposition is below 256. -/
theorem toLe_lt (w v : Nat) : ∀ b ∈ toLe w v, b < 256 := by
  induction w generalizing v with
  | zero => simp [toLe]
  | succ w ih =>
    intro b hb
    simp only [toLe, List.mem_cons] at hb
    rcases hb with h | h
    · omega
    · exact ih _ b h

/-- Reducing the bytes of a list already below 256 changes nothing. -/
theorem map_mod_of_lt (bs : List Nat) (h : ∀ b ∈ bs, b < 256) :
    bs.map (fun b => b % 256) = bs := by
  induction bs with
  | nil => rfl
  | cons b rest ih =>
    have hb : b < 256 := h b (by simp)
    simp [Nat.mod_eq_of_lt hb, ih (fun x hx => h x (by simp [hx]))]

/-- Value of a little-endian decomposition. -/
theorem fromLe_toLe (w v : Nat) : fromLe (toLe w v) = v % 256 ^ w := by
  induction w generalizing v with
  | zero => simp [toLe, fromLe, Nat.mod_one]
  | succ w ih =>
    simp only [toLe, fromLe, ih]
    rw [pow_succ, mul_comm (256 ^ w) 256, Nat.mod_mul]

/-- Reading exactly the length of a leading block returns that block,
byte-reduced, and the tail. -/
theorem read_exact_append (bs rest : ByteStream) :
    read_exact bs.length (bs ++ rest) = .ok (bs.map (fun b => b % 256), rest) := by
  simp [read_exact, List.take_left, List.drop_left, List.length_append]

/-- Hex digits below 16 decode back to themselves. -/
theorem hexDigitVal_hexDigitChar : ∀ n < 16, hexDigitVal (hexDigitChar n) = some n := by
  decide

/-- Hex pair decoding inverts hex character encoding, reducing each byte. -/
theorem hexPairs_hexEncodeChars (bs : List Nat) :
    hexPairs (hexEncodeChars bs) = some (bs.map (fun b => b % 256)) := by
  induction bs with
  | nil => rfl
  | cons b rest ih =>
    have h1 : hexDigitVal (hexDigitChar (b % 256 / 16)) = some (b % 256 / 16) :=
      hexDigitVal_hexDigitChar _ (by omega)
    have h2 : hexDigitVal (hexDigitChar (b % 16)) = some (b % 16) :=
      hexDigitVal_hexDigitChar _ (by omega)
    simp only [hexEncodeChars, hexPairs, h1, h2, ih]
    have : b % 256 / 16 * 16 + b % 16 = b % 256 := by omega
    simp [this]

/-- Hex decoding inverts hex encoding, reducing each byte. -/
theorem hexDecode_hexEncode (bs : List Nat) :
    hexDecode (hexEncode bs) = some (bs.map (fun b => b % 256)) :=
  hexPairs_hexEncodeChars bs

/-- Hex encoding only depends on the bytes modulo 256. -/
theorem hexEncodeChars_map_mod (bs : List Nat) :
    hexEncodeChars (bs.map (fun b => b % 256)) = hexEncodeChars bs := by
  induction bs with
  | nil => rfl
  | cons b rest ih =>
    have h1 : b % 256 % 256 / 16 = b % 256 / 16 := by omega
    have h2 : b % 256 % 16 = b % 16 := by omega
    simp only [List.map_cons, hexEncodeChars, ih, h1, h2]

/-- A script in canonical form: valid hex text that re-encodes to
itself (equivalently, an image of `hexEncode`). -/
def isCanonicalHex (s : String) : Bool :=
  match hexDecode s with
  | some bs => decide (hexEncode bs = s)
  | none => false

/-! ## Round-trip lemmas for the primitive and size codecs -/

/-- Reading the width of a little-endian block returns the block. -/
theorem read_exact_toLe (w v : Nat) (r : ByteStream) :
    read_exact w (toLe w v ++ r) = .ok (toLe w v, r) := by
  have h := read_exact_append (toLe w v) r
  rw [toLe_length] at h
  rw [h, map_mod_of_lt _ (toLe_lt w v)]

/-- Decoding one byte off a stream. -/
theorem decodeU8_cons (b : Nat) (t : ByteStream) : decodeU8 (b :: t) = .ok (b % 256, t) := by
  simp [decodeU8, read_exact, fromLe]

/-- Round trip of the one-byte integer codec. -/
theorem decodeU8_toLe (v : Nat) (h : v < 256) (r : ByteStream) :
    decodeU8 (toLe 1 v ++ r) = .ok (v, r) := by
  unfold decodeU8
  rw [read_exact_toLe, ok_bind]
  show Except.ok (fromLe (toLe 1 v), r) = Except.ok (v, r)
  have hv : v % 256 ^ 1 = v := Nat.mod_eq_of_lt (by omega)
  rw [fromLe_toLe, hv]

/-- Round trip of the two-byte integer codec. -/
theorem decodeU16_toLe (v : Nat) (h : v < 65536) (r : ByteStream) :
    decodeU16 (toLe 2 v ++ r) = .ok (v, r) := by
  unfold decodeU16
  rw [read_exact_toLe, ok_bind]
  show Except.ok (fromLe (toLe 2 v), r) = Except.ok (v, r)
  have hv : v % 256 ^ 2 = v := Nat.mod_eq_of_lt (by omega)
  rw [fromLe_toLe, hv]

/-- Round trip of the four-byte integer codec. -/
theorem decodeU32_toLe (v : Nat) (h : v < 4294967296) (r : ByteStream) :
    decodeU32 (toLe 4 v ++ r) = .ok (v, r) := by
  unfold decodeU32
  rw [read_exact_toLe, ok_bind]
  show Except.ok (fromLe (toLe 4 v), r) = Except.ok (v, r)
  have hv : v % 256 ^ 4 = v := Nat.mod_eq_of_lt (by omega)
  rw [fromLe_toLe, hv]

/-- Round trip of the eight-byte integer codec. -/
theorem decodeU64_toLe (v : Nat) (h : v < 18446744073709551616) (r : ByteStream) :
    decodeU64 (toLe 8 v ++ r) = .ok (v, r) := by
  unfold decodeU64
  rw [read_exact_toLe, ok_bind]
  show Except.ok (fromLe (toLe 8 v), r) = Except.ok (v, r)
  have hv : v % 256 ^ 8 = v := Nat.mod_eq_of_lt (by omega)
  rw [fromLe_toLe, hv]

/-- Round trip of the CompactSize codec for any value a `u64` holds. -/
theorem decodeCompactSize_encodeCompactSize (v : Nat)
    (h : v < 18446744073709551616) (r : ByteStream) :
    decodeCompactSize (encodeCompactSize v ++ r) = .ok (v, r) := by
  unfold encodeCompactSize
  by_cases h1 : v ≤ 252
  · rw [if_pos h1]
    unfold decodeCompactSize encodeU8
    rw [decodeU8_toLe v (by omega), ok_bind]
    simp only [if_neg (show ¬v = 255 by omega), if_neg (show ¬v = 254 by omega),
      if_neg (show ¬v = 253 by omega)]
    rfl
  · rw [if_neg h1]
    by_cases h2 : v ≤ 65535
    · rw [if_pos h2]
      unfold decodeCompactSize encodeU16
      rw [List.cons_append, decodeU8_cons, ok_bind]
      norm_num
      exact decodeU16_toLe v (by omega) r
    · rw [if_neg h2]
      by_cases h3 : v ≤ 4294967295
      · rw [if_pos h3]
        unfold decodeCompactSize encodeU32
        rw [List.cons_append, decodeU8_cons, ok_bind]
        norm_num
        exact decodeU32_toLe v (by omega) r
      · rw [if_neg h3]
        unfold decodeCompactSize encodeU64
        rw [List.cons_append, decodeU8_cons, ok_bind]
        norm_num
        exact decodeU64_toLe v (by omega) r

/-- Lifting a value into the decode monad is a successful result. -/
theorem pure_ok {ε α : Type} (a : α) : (pure a : Except ε α) = .ok a := rfl

/-- Hex encoding only depends on the bytes modulo 256, at text level. -/
theorem hexEncode_map_mod (bs : List Nat) :
    hexEncode (bs.map (fun b => b % 256)) = hexEncode bs := by
  unfold hexEncode
  rw [hexEncodeChars_map_mod]

/-- Canonical-form input for the legacy round trip: realizable machine
widths and a script that is the hex encoding of its byte content. -/
def TxIn.Canonical (i : TxIn) : Prop :=
  i.previous_txid.bytes.length = 32 ∧ (∀ b ∈ i.previous_txid.bytes, b < 256) ∧
  i.previous_vout < 4294967296 ∧ i.sequence < 4294967296 ∧
  ∃ bs, hexDecode i.script_sig = some bs ∧ hexEncode bs = i.script_sig ∧
    bs.length < 18446744073709551616

/-- Canonical-form output for the legacy round trip. -/
def TxOut.Canonical (o : TxOut) : Prop :=
  o.amount.sat < 18446744073709551616 ∧
  ∃ bs, hexDecode o.script_pubkey = some bs ∧ hexEncode bs = o.script_pubkey ∧
    bs.length < 18446744073709551616

/-- Canonical-form transaction for the legacy round trip: realizable
machine widths everywhere and canonical hex scripts. -/
def Transaction.Canonical (t : Transaction) : Prop :=
  t.version < 4294967296 ∧ t.lock_time < 4294967296 ∧
  t.inputs.length < 18446744073709551616 ∧
  t.outputs.length < 18446744073709551616 ∧
  (∀ i ∈ t.inputs, i.Canonical) ∧ (∀ o ∈ t.outputs, o.Canonical)

/-- Round trip of the length-prefixed script codec on canonical hex. -/
theorem decodeString_encodeString (str : String) (bs : List Nat) (r : ByteStream)
    (_h1 : hexDecode str = some bs) (h2 : hexEncode bs = str)
    (h3 : bs.length < 18446744073709551616) :
    decodeString (encodeCompactSize bs.length ++ (bs ++ r)) = .ok (str, r) := by
  unfold decodeString
  rw [decodeCompactSize_encodeCompactSize bs.length h3]
  simp only [ok_bind, read_exact_append, pure_ok, hexEncode_map_mod, h2]

/-- Encoding a canonical script succeeds and produces the prefixed
bytes. -/
theorem encodeString_of_canonical (str : String) (bs : List Nat)
    (h1 : hexDecode str = some bs) :
    encodeString str = some (encodeCompactSize bs.length ++ bs) := by
  unfold encodeString
  rw [h1]

/-- Round trip of the 32-byte identifier codec. -/
theorem decodeTxid_bytes (id : Txid) (r : ByteStream)
    (h : id.bytes.length = 32) (hb : ∀ b ∈ id.bytes, b < 256) :
    decodeTxid (id.bytes ++ r) = .ok (id, r) := by
  unfold decodeTxid
  have h2 := read_exact_append id.bytes r
  rw [h] at h2
  rw [h2]
  simp only [ok_bind, pure_ok, map_mod_of_lt _ hb]

/-- Round trip of the input codec on a canonical input whose witness is
empty, as every decoded input's witness is. -/
theorem decodeTxIn_encode (i : TxIn) (e : List Nat) (r : ByteStream)
    (hc : i.Canonical) (hwit : i.witness = Witness.new)
    (henc : i.consensus_encode = some e) :
    decodeTxIn (e ++ r) = .ok (i, r) := by
  obtain ⟨hidlen, hidb, hvout, hseq, bs, hhd, hhe, hblen⟩ := hc
  unfold TxIn.consensus_encode at henc
  rw [encodeString_of_canonical _ _ hhd] at henc
  injection henc with henc
  subst henc
  unfold decodeTxIn
  simp only [Txid.consensus_encode, List.append_assoc]
  rw [decodeTxid_bytes i.previous_txid _ hidlen hidb]
  simp only [ok_bind]
  rw [show encodeU32 i.previous_vout = toLe 4 i.previous_vout from rfl,
      decodeU32_toLe _ hvout]
  simp only [ok_bind]
  rw [decodeString_encodeString _ _ _ hhd hhe hblen]
  simp only [ok_bind]
  rw [show encodeU32 i.sequence = toLe 4 i.sequence from rfl, decodeU32_toLe _ hseq]
  simp only [ok_bind, pure_ok]
  rw [← hwit]

/-- Round trip of the output codec on a canonical output. -/
theorem decodeTxOut_encode (o : TxOut) (e : List Nat) (r : ByteStream)
    (hc : o.Canonical) (henc : o.consensus_encode = some e) :
    decodeTxOut (e ++ r) = .ok (o, r) := by
  obtain ⟨hamt, bs, hhd, hhe, hblen⟩ := hc
  unfold TxOut.consensus_encode at henc
  rw [encodeString_of_canonical _ _ hhd] at henc
  injection henc with henc
  subst henc
  unfold decodeTxOut
  simp only [List.append_assoc]
  rw [show encodeU64 o.amount.sat = toLe 8 o.amount.sat from rfl, decodeU64_toLe _ hamt]
  simp only [ok_bind]
  rw [decodeString_encodeString _ _ _ hhd hhe hblen]
  simp only [ok_bind, pure_ok, Except.ok.injEq, Prod.mk.injEq]

/-- Counted decoding inverts pointwise-invertible list encoding. -/
theorem decodeCount_encodeList {α : Type} (dec : ByteStream → Except Error (α × ByteStream))
    (enc : α → Option (List Nat)) (P : α → Prop)
    (hstep : ∀ a, P a → ∀ e r, enc a = some e → dec (e ++ r) = .ok (a, r)) :
    ∀ (l : List α) (e : List Nat) (r : ByteStream), (∀ a ∈ l, P a) →
      encodeList enc l = some e → decodeCount dec l.length (e ++ r) = .ok (l, r) := by
  intro l
  induction l with
  | nil =>
    intro e r _ henc
    unfold encodeList at henc
    injection henc with henc
    subst henc
    rfl
  | cons a rest ih =>
    intro e r hP henc
    unfold encodeList at henc
    cases ha : enc a with
    | none => rw [ha] at henc; cases henc
    | some b =>
      cases hrest : encodeList enc rest with
      | none => rw [ha, hrest] at henc; cases henc
      | some bs =>
        rw [ha, hrest] at henc
        injection henc with henc
        subst henc
        show decodeCount dec (rest.length + 1) (b ++ bs ++ r) = _
        unfold decodeCount
        rw [List.append_assoc, hstep a (hP a (by simp)) b (bs ++ r) ha]
        simp only [ok_bind]
        rw [ih bs r (fun x hx => hP x (by simp [hx])) hrest]
        simp only [ok_bind, pure_ok]

/-- Round trip of the input sequence codec on canonical inputs with
empty witnesses. -/
theorem decodeVecTxIn_encode (l : List TxIn) (e : List Nat) (r : ByteStream)
    (hlen : l.length < 18446744073709551616)
    (hc : ∀ i ∈ l, i.Canonical) (hw : ∀ i ∈ l, i.witness = Witness.new)
    (henc : encodeVecTxIn l = some e) :
    decodeVecTxIn (e ++ r) = .ok (l, r) := by
  unfold encodeVecTxIn at henc
  cases hbody : encodeList TxIn.consensus_encode l with
  | none => rw [hbody] at henc; cases henc
  | some body =>
    rw [hbody] at henc
    injection henc with henc
    subst henc
    unfold decodeVecTxIn
    rw [List.append_assoc, decodeCompactSize_encodeCompactSize _ hlen]
    simp only [ok_bind]
    exact decodeCount_encodeList decodeTxIn TxIn.consensus_encode
      (fun i => i.Canonical ∧ i.witness = Witness.new)
      (fun a hpa e2 r2 he2 => decodeTxIn_encode a e2 r2 hpa.1 hpa.2 he2)
      l body r (fun i hi => ⟨hc i hi, hw i hi⟩) hbody

/-- Round trip of the output sequence codec on canonical outputs. -/
theorem decodeVecTxOut_encode (l : List TxOut) (e : List Nat) (r : ByteStream)
    (hlen : l.length < 18446744073709551616)
    (hc : ∀ o ∈ l, o.Canonical)
    (henc : encodeVecTxOut l = some e) :
    decodeVecTxOut (e ++ r) = .ok (l, r) := by
  unfold encodeVecTxOut at henc
  cases hbody : encodeList TxOut.consensus_encode l with
  | none => rw [hbody] at henc; cases henc
  | some body =>
    rw [hbody] at henc
    injection henc with henc
    subst henc
    unfold decodeVecTxOut
    rw [List.append_assoc, decodeCompactSize_encodeCompactSize _ hlen]
    simp only [ok_bind]
    exact decodeCount_encodeList decodeTxOut TxOut.consensus_encode TxOut.Canonical
      (fun a hpa e2 r2 he2 => decodeTxOut_encode a e2 r2 hpa he2)
      l body r hc hbody

/-- Round trip of the whole legacy path: decoding the legacy-only
encoding of a canonical non-segwit transaction returns it exactly, with
the rest of the stream untouched. -/
theorem consensus_decode_encode_legacy (t : Transaction) (e : List Nat) (r : ByteStream)
    (hwf : t.Canonical) (hne : t.inputs ≠ [])
    (hwit : ∀ i ∈ t.inputs, i.witness = Witness.new)
    (henc : t.consensus_encode_legacy = some e) :
    Transaction.consensus_decode (e ++ r) = .ok (t, r) := by
  obtain ⟨hv, hlt, hilen, holen, hci, hco⟩ := hwf
  unfold Transaction.consensus_encode_legacy Transaction.txid_data at henc
  cases hins : encodeVecTxIn t.inputs with
  | none => rw [hins] at henc; cases henc
  | some ins =>
    cases houts : encodeVecTxOut t.outputs with
    | none => rw [hins, houts] at henc; cases henc
    | some outs =>
      rw [hins, houts] at henc
      injection henc with henc
      subst henc
      unfold Transaction.consensus_decode
      simp only [List.append_assoc]
      rw [show encodeU32 t.version = toLe 4 t.version from rfl, decodeU32_toLe _ hv]
      simp only [ok_bind]
      rw [decodeVecTxIn_encode t.inputs ins _ hilen hci hwit hins]
      simp only [ok_bind]
      rw [if_neg (by simp [List.isEmpty_iff, hne])]
      rw [decodeVecTxOut_encode t.outputs outs _ holen hco houts]
      simp only [ok_bind]
      rw [show encodeU32 t.lock_time = toLe 4 t.lock_time from rfl, decodeU32_toLe _ hlt]
      simp only [ok_bind, pure_ok, Except.ok.injEq, Prod.mk.injEq]

/-! ## Claim theorems -/

/-- C2: for every `u64` value `v`, decoding the bytes written by
`CompactSize(v).consensus_encode` returns `v`, and the encoder emits the
narrowest of the four forms: one raw byte for `0..=252`, marker `0xFD`
plus a 2-byte little-endian integer for `253..=65535`, marker `0xFE`
plus 4 bytes for `65536..=4294967295`, and marker `0xFF` plus 8 bytes
above that. -/
theorem c2_compactsize_roundtrip_canonical (v : Nat) (h : v < 18446744073709551616) :
    decodeCompactSize (encodeCompactSize v) = .ok (v, []) ∧
    (v ≤ 252 → encodeCompactSize v = [v]) ∧
    (253 ≤ v → v ≤ 65535 → encodeCompactSize v = 0xFD :: toLe 2 v) ∧
    (65536 ≤ v → v ≤ 4294967295 → encodeCompactSize v = 0xFE :: toLe 4 v) ∧
    (4294967296 ≤ v → encodeCompactSize v = 0xFF :: toLe 8 v) := by
  refine ⟨?_, ?_, ?_, ?_, ?_⟩
  · have h2 := decodeCompactSize_encodeCompactSize v h []
    rwa [List.append_nil] at h2
  · intro h1
    unfold encodeCompactSize
    rw [if_pos h1]
    show toLe 1 v = [v]
    simp [toLe, Nat.mod_eq_of_lt (show v < 256 by omega)]
  · intro h1 h2
    unfold encodeCompactSize
    rw [if_neg (by omega), if_pos h2]
    rfl
  · intro h1 h2
    unfold encodeCompactSize
    rw [if_neg (by omega), if_neg (by omega), if_pos h2]
    rfl
  · intro h1
    unfold encodeCompactSize
    rw [if_neg (by omega), if_neg (by omega), if_neg (by omega)]
    rfl

/-- Witness for C2: the four-byte form round-trips at the concrete value
70000 and is chosen for it. -/
theorem c2_compactsize_roundtrip_canonical_witness :
    decodeCompactSize (encodeCompactSize 70000) = .ok (70000, []) ∧
    encodeCompactSize 70000 = 0xFE :: toLe 4 70000 :=
  ⟨(c2_compactsize_roundtrip_canonical 70000 (by decide)).1,
   (c2_compactsize_roundtrip_canonical 70000 (by decide)).2.2.2.1 (by decide) (by decide)⟩

/-- C3: the CompactSize decoder is permissive where the encoder is
canonical: each wider-than-necessary form decodes to the correct logical
value, in particular `FD 01 00` decodes to 1 though `encode(1)` is the
single byte `01`, and `FD 20 4E` decodes to exactly 20000. -/
theorem c3_decode_wide_forms (v : Nat) (r : ByteStream) :
    (v < 65536 → decodeCompactSize (0xFD :: (toLe 2 v ++ r)) = .ok (v, r)) ∧
    (v < 4294967296 → decodeCompactSize (0xFE :: (toLe 4 v ++ r)) = .ok (v, r)) ∧
    (v < 18446744073709551616 → decodeCompactSize (0xFF :: (toLe 8 v ++ r)) = .ok (v, r)) ∧
    decodeCompactSize [0xFD, 1, 0] = .ok (1, []) ∧
    encodeCompactSize 1 = [1] ∧
    decodeCompactSize [0xFD, 0x20, 0x4E] = .ok (20000, []) := by
  refine ⟨?_, ?_, ?_, by decide, by decide, by decide⟩
  · intro h
    unfold decodeCompactSize
    rw [decodeU8_cons, ok_bind]
    norm_num
    exact decodeU16_toLe v h r
  · intro h
    unfold decodeCompactSize
    rw [decodeU8_cons, ok_bind]
    norm_num
    exact decodeU32_toLe v h r
  · intro h
    unfold decodeCompactSize
    rw [decodeU8_cons, ok_bind]
    norm_num
    exact decodeU64_toLe v h r

/-- Witness for C3: the two-byte wide form of the value 1 decodes to 1. -/
theorem c3_decode_wide_forms_witness :
    decodeCompactSize (0xFD :: (toLe 2 1 ++ [])) = .ok (1, []) :=
  (c3_decode_wide_forms 1 []).1 (by decide)

/-- C7 is violated by the code: on the nine-byte input
`FF FF FF FF FF FF FF FF FF` the script decoder's CompactSize prefix
decodes to 2^64 - 1 with zero bytes of input remaining, and the source
runs `vec![0; len]` — an allocation of that size — before `read_exact`
performs the remaining-input check that then fails. -/
theorem c7_allocation_unchecked :
    stringDecodeAllocation (List.replicate 9 0xFF) = some 18446744073709551615 ∧
    streamAfterCompactSize (List.replicate 9 0xFF) = some [] ∧
    decodeString (List.replicate 9 0xFF) = .error .truncated := by
  decide

/-- C8: a single zero byte where a transaction record is expected fails
with the stream-ended-early error; the total model never panics. -/
theorem c8_single_zero_truncated :
    Transaction.consensus_decode [0] = .error .truncated := by
  decide

/-- Non-segwit transaction whose script is valid hex but written in
uppercase, so it is not in the image of `hex::encode`. -/
def c1Tx : Transaction :=
  { version := 1,
    inputs := [{ previous_txid := ⟨List.replicate 32 0⟩, previous_vout := 0,
                 script_sig := "AB", sequence := 0, witness := Witness.new }],
    outputs := [], lock_time := 0 }

/-- Transaction actually returned by decoding the encoding of `c1Tx`:
the script comes back lowercase. -/
def c1TxDecoded : Transaction :=
  { version := 1,
    inputs := [{ previous_txid := ⟨List.replicate 32 0⟩, previous_vout := 0,
                 script_sig := "ab", sequence := 0, witness := Witness.new }],
    outputs := [], lock_time := 0 }

/-- Legacy encoding of `c1Tx`. -/
def c1Bytes : List Nat :=
  [1, 0, 0, 0, 1] ++ List.replicate 32 0 ++
  [0, 0, 0, 0, 1, 171, 0, 0, 0, 0, 0, 0, 0, 0, 0]

/-- C1 fails as stated: `c1Tx` is a non-segwit transaction with a
non-empty input list, empty witnesses and a valid-hex script (`AB`,
accepted by `hex::decode`), yet decoding its legacy encoding returns a
transaction whose input differs from the original — the script is
re-rendered lowercase. -/
theorem c1_counterexample :
    hexDecode ("AB") = some [171] ∧
    c1Tx.inputs.isEmpty = false ∧
    c1Tx.inputs.all (fun i => i.witness.is_empty) = true ∧
    c1Tx.consensus_encode_legacy = some c1Bytes ∧
    Transaction.consensus_decode c1Bytes = .ok (c1TxDecoded, []) ∧
    c1TxDecoded ≠ c1Tx ∧
    c1TxDecoded.version = c1Tx.version ∧
    c1TxDecoded.outputs = c1Tx.outputs ∧
    c1TxDecoded.lock_time = c1Tx.lock_time ∧
    c1TxDecoded.inputs.map (fun i => i.script_sig) = ["ab"] ∧
    c1Tx.inputs.map (fun i => i.script_sig) = ["AB"] := by
  decide

/-- C1 (amended): for every non-segwit transaction with a non-empty
input list, empty witnesses, and script fields in canonical lowercase
hex form (the image of `hex::encode`), decoding the legacy encoding
returns the transaction exactly; `Transaction.Canonical` also carries
the machine-width bounds every `Rust` value of these types satisfies by
construction. -/
theorem c1_legacy_roundtrip (t : Transaction) (e : List Nat)
    (hc : t.Canonical) (hne : t.inputs ≠ [])
    (hwit : ∀ i ∈ t.inputs, i.witness = Witness.new)
    (henc : t.consensus_encode_legacy = some e) :
    Transaction.consensus_decode e = .ok (t, []) := by
  have h := consensus_decode_encode_legacy t e [] hc hne hwit henc
  rwa [List.append_nil] at h

/-- Canonical one-input one-output transaction for the C1 witness. -/
def c1WitnessTx : Transaction :=
  { version := 2,
    inputs := [{ previous_txid := ⟨List.replicate 32 7⟩, previous_vout := 1,
                 script_sig := "ab", sequence := 4294967295, witness := Witness.new }],
    outputs := [{ amount := ⟨50000⟩, script_pubkey := "00" }], lock_time := 600000 }

/-- Legacy encoding of `c1WitnessTx`. -/
def c1WitnessBytes : List Nat :=
  [2, 0, 0, 0, 1] ++ List.replicate 32 7 ++
  [1, 0, 0, 0, 1, 171, 255, 255, 255, 255, 1,
   80, 195, 0, 0, 0, 0, 0, 0, 1, 0, 192, 39, 9, 0]

/-- Witness for the amended C1: the round trip holds at a concrete
canonical transaction. -/
theorem c1_legacy_roundtrip_witness :
    Transaction.consensus_decode c1WitnessBytes = .ok (c1WitnessTx, []) :=
  c1_legacy_roundtrip c1WitnessTx c1WitnessBytes
    ⟨by decide, by decide, by decide, by decide,
     by
       intro i hi
       simp only [c1WitnessTx, List.mem_singleton] at hi
       subst hi
       exact ⟨by decide, by decide, by decide, by decide,
              ⟨[171], by decide, by decide, by decide⟩⟩,
     by
       intro o ho
       simp only [c1WitnessTx, List.mem_singleton] at ho
       subst ho
       exact ⟨by decide, ⟨[0], by decide, by decide, by decide⟩⟩⟩
    (by decide) (by decide) (by decide)

/-- Replacement of every input's witness by an arbitrary function of the
input, leaving all other fields alone. -/
def Transaction.mapWitness (t : Transaction) (f : TxIn → Witness) : Transaction :=
  { t with inputs := t.inputs.map (fun i => { i with witness := f i }) }

/-- Input encoding never reads the witness field. -/
theorem txin_encode_witness_invariant (f : TxIn → Witness) (l : List TxIn) :
    encodeList TxIn.consensus_encode (l.map (fun i => { i with witness := f i })) =
    encodeList TxIn.consensus_encode l := by
  induction l with
  | nil => rfl
  | cons a rest ih =>
    have ha : TxIn.consensus_encode { a with witness := f a } = TxIn.consensus_encode a := rfl
    simp only [List.map_cons, encodeList, ha, ih]

/-- Input sequence encoding never reads the witness fields. -/
theorem encodeVecTxIn_witness_invariant (f : TxIn → Witness) (l : List TxIn) :
    encodeVecTxIn (l.map (fun i => { i with witness := f i })) = encodeVecTxIn l := by
  unfold encodeVecTxIn
  rw [txin_encode_witness_invariant, List.length_map]

/-- The txid input buffer never contains witness data. -/
theorem txid_data_witness_invariant (t : Transaction) (f : TxIn → Witness) :
    (t.mapWitness f).txid_data = t.txid_data := by
  unfold Transaction.mapWitness Transaction.txid_data
  simp only [encodeVecTxIn_witness_invariant]

/-- C4: whenever the legacy-only buffer of a transaction is assembled,
`txid` is SHA-256 applied twice in succession to it — the second
application over the raw 32-byte output of the first — with no
byte-order change at construction; the buffer is exactly the
concatenation version, inputs (witness never written), outputs,
lock time; changing witnesses arbitrarily leaves the txid unchanged; and
the rendered text form of an identifier is the hex encoding of its bytes
in reversed order. -/
theorem c4_txid_derivation (t : Transaction) (d : List Nat)
    (h : t.txid_data = some d) :
    t.txid = some (Txid.new d) ∧
    (Txid.new d).bytes = sha256 (sha256 d) ∧
    (∃ ins outs, encodeVecTxIn t.inputs = some ins ∧ encodeVecTxOut t.outputs = some outs ∧
       d = encodeU32 t.version ++ ins ++ outs ++ encodeU32 t.lock_time) ∧
    (∀ f : TxIn → Witness, (t.mapWitness f).txid = t.txid) ∧
    (∀ id : Txid, id.serialize = JValue.str (hexEncode id.bytes.reverse)) := by
  refine ⟨?_, rfl, ?_, ?_, fun id => rfl⟩
  · unfold Transaction.txid
    rw [h]
    rfl
  · unfold Transaction.txid_data at h
    cases hins : encodeVecTxIn t.inputs with
    | none => rw [hins] at h; cases h
    | some ins =>
      cases houts : encodeVecTxOut t.outputs with
      | none => rw [hins, houts] at h; cases h
      | some outs =>
        rw [hins, houts] at h
        injection h with h
        exact ⟨ins, outs, rfl, rfl, h.symm⟩
  · intro f
    unfold Transaction.txid
    rw [txid_data_witness_invariant]

/-- Witness for C4: the empty transaction assembles the ten-byte legacy
buffer and hashes it. -/
theorem c4_txid_derivation_witness :
    ({ version := 0, inputs := [], outputs := [], lock_time := 0 } : Transaction).txid =
      some (Txid.new [0, 0, 0, 0, 0, 0, 0, 0, 0, 0]) :=
  (c4_txid_derivation { version := 0, inputs := [], outputs := [], lock_time := 0 }
    [0, 0, 0, 0, 0, 0, 0, 0, 0, 0] (by decide)).1

/-- C9: an input's serialized field tree carries `txinwitness` (the
hex-encoded witness stack, as an array) exactly when the witness is
non-empty, and `scriptSig` exactly when it is empty; the two keys never
appear together. -/
theorem c9_presentation_field_choice (i : TxIn) :
    ("txinwitness" ∈ (i.serialize).keys ↔ i.witness.is_empty = false) ∧
    ("scriptSig" ∈ (i.serialize).keys ↔ i.witness.is_empty = true) ∧
    (i.witness.is_empty = false →
      (i.serialize).lookup ("txinwitness") =
        some (JValue.arr (i.witness.content.map (fun e => JValue.str (hexEncode e)))) ∧
      (i.serialize).lookup ("scriptSig") = none) ∧
    (i.witness.is_empty = true →
      (i.serialize).lookup ("scriptSig") = some (JValue.str i.script_sig) ∧
      (i.serialize).lookup ("txinwitness") = none) := by
  cases hw : i.witness.is_empty with
  | true =>
    simp only [TxIn.serialize, hw, if_true, JValue.keys, JValue.lookup, Witness.serialize]
    simp [List.find?]
  | false =>
    simp only [TxIn.serialize, hw, Bool.false_eq_true, if_false, JValue.keys, JValue.lookup,
      Witness.serialize]
    simp [List.find?]

/-- Concrete input carrying a one-entry witness stack, for the C9
witness. -/
def c9WitnessIn : TxIn :=
  { previous_txid := ⟨List.replicate 32 0⟩, previous_vout := 0,
    script_sig := "", sequence := 0, witness := ⟨[[171]]⟩ }

/-- Witness for C9: evaluated at a concrete input carrying a one-entry
witness stack. -/
theorem c9_presentation_field_choice_witness :
    ("txinwitness" ∈ (c9WitnessIn.serialize).keys ↔ c9WitnessIn.witness.is_empty = false) ∧
    ("scriptSig" ∈ (c9WitnessIn.serialize).keys ↔ c9WitnessIn.witness.is_empty = true) :=
  ⟨(c9_presentation_field_choice c9WitnessIn).1,
   (c9_presentation_field_choice c9WitnessIn).2.1⟩

/-- C5 fails as stated: this stream decodes along the segwit path
(empty initial input list, marker byte 1), its real input list is empty,
so after all (zero) witness sections are read every input's witness is
vacuously empty — yet decoding succeeds instead of failing with
`ParseFailed`, because the source guards the check with
`!inputs.is_empty()`. -/
theorem c5_counterexample :
    decodeU32 ([0, 0, 0, 0, 0, 1, 0, 0, 0, 0, 0, 0]) = .ok (0, [0, 1, 0, 0, 0, 0, 0, 0]) ∧
    decodeVecTxIn ([0, 1, 0, 0, 0, 0, 0, 0]) = .ok ([], [1, 0, 0, 0, 0, 0, 0]) ∧
    decodeU8 ([1, 0, 0, 0, 0, 0, 0]) = .ok (1, [0, 0, 0, 0, 0, 0]) ∧
    decodeVecTxIn ([0, 0, 0, 0, 0, 0]) = .ok ([], [0, 0, 0, 0, 0]) ∧
    decodeVecTxOut ([0, 0, 0, 0, 0]) = .ok ([], [0, 0, 0, 0]) ∧
    assignWitnesses [] [0, 0, 0, 0] = .ok ([], [0, 0, 0, 0]) ∧
    (List.all [] (fun i : TxIn => i.witness.is_empty)) = true ∧
    Transaction.consensus_decode ([0, 0, 0, 0, 0, 1, 0, 0, 0, 0, 0, 0]) =
      .ok ({ version := 0, inputs := [], outputs := [], lock_time := 0 }, []) ∧
    Transaction.consensus_decode ([0, 0, 0, 0, 0, 1, 0, 0, 0, 0, 0, 0]) ≠
      .error (.parseFailed ("witness flag set but no witnesses present")) := by
  decide

/-- C5 (amended): on the segwit path, after all witness sections are
read, if the real input list is non-empty and every input's witness is
empty, decoding fails with `ParseFailed` instead of returning a
transaction. -/
theorem c5_segwit_all_empty_witnesses (s s1 s2 s3 s4 s5 s6 : ByteStream)
    (v : Nat) (ins ins2 : List TxIn) (outs : List TxOut)
    (h1 : decodeU32 s = .ok (v, s1))
    (h2 : decodeVecTxIn s1 = .ok ([], s2))
    (h3 : decodeU8 s2 = .ok (1, s3))
    (h4 : decodeVecTxIn s3 = .ok (ins, s4))
    (h5 : decodeVecTxOut s4 = .ok (outs, s5))
    (h6 : assignWitnesses ins s5 = .ok (ins2, s6))
    (hne : ins2 ≠ [])
    (hall : ins2.all (fun i => i.witness.is_empty) = true) :
    Transaction.consensus_decode s =
      .error (.parseFailed ("witness flag set but no witnesses present")) := by
  unfold Transaction.consensus_decode
  rw [h1]
  simp only [ok_bind]
  rw [h2]
  simp only [ok_bind, List.isEmpty_nil, if_true]
  rw [h3]
  simp only [ok_bind]
  simp only [if_true]
  rw [h4]
  simp only [ok_bind]
  rw [h5]
  simp only [ok_bind]
  rw [h6]
  simp only [ok_bind]
  have hcond : ¬ins2.isEmpty = true ∧ (ins2.all fun i => i.witness.is_empty) = true :=
    ⟨by simp [List.isEmpty_iff, hne], hall⟩
  rw [if_pos hcond]

/-- Input of the C5 witness stream. -/
def c5In : TxIn :=
  { previous_txid := ⟨List.replicate 32 0⟩, previous_vout := 0,
    script_sig := "", sequence := 0, witness := Witness.new }

/-- Segwit stream with one real input and an empty witness section. -/
def c5Stream : List Nat :=
  [1, 0, 0, 0, 0, 1, 1] ++ List.replicate 32 0 ++
  [0, 0, 0, 0, 0, 0, 0, 0, 0, 0, 0]

/-- Witness for the amended C5: a concrete segwit stream with one input
and an all-empty witness section fails with `ParseFailed`. -/
theorem c5_segwit_all_empty_witnesses_witness :
    Transaction.consensus_decode c5Stream =
      .error (.parseFailed ("witness flag set but no witnesses present")) :=
  c5_segwit_all_empty_witnesses c5Stream
    ([0, 1, 1] ++ List.replicate 32 0 ++ [0, 0, 0, 0, 0, 0, 0, 0, 0, 0, 0])
    ([1, 1] ++ List.replicate 32 0 ++ [0, 0, 0, 0, 0, 0, 0, 0, 0, 0, 0])
    ([1] ++ List.replicate 32 0 ++ [0, 0, 0, 0, 0, 0, 0, 0, 0, 0, 0])
    [0, 0] [0] [] 1 [c5In] [c5In] []
    (by decide) (by decide) (by decide) (by decide) (by decide) (by decide)
    (by decide) (by decide)

/-- C6: on the segwit path the only accepted marker byte is 1 — any
other marker value `m` fails with `UnsupportedSegwitFlag m` — and with
marker 1, real inputs, outputs, witness sections carrying at least one
non-empty witness, and a lock time, decoding succeeds with those
fields. -/
theorem c6_segwit_marker (s s1 s2 s3 : ByteStream) (v m : Nat)
    (h1 : decodeU32 s = .ok (v, s1))
    (h2 : decodeVecTxIn s1 = .ok ([], s2))
    (h3 : decodeU8 s2 = .ok (m, s3)) :
    (m ≠ 1 → Transaction.consensus_decode s = .error (.unsupportedSegwitFlag m)) ∧
    (∀ (ins ins2 : List TxIn) (outs : List TxOut) (s4 s5 s6 s7 : ByteStream) (lt : Nat),
      m = 1 →
      decodeVecTxIn s3 = .ok (ins, s4) →
      decodeVecTxOut s4 = .ok (outs, s5) →
      assignWitnesses ins s5 = .ok (ins2, s6) →
      ins2.all (fun i => i.witness.is_empty) = false →
      decodeU32 s6 = .ok (lt, s7) →
      Transaction.consensus_decode s =
        .ok ({ version := v, inputs := ins2, outputs := outs, lock_time := lt }, s7)) := by
  constructor
  · intro hm
    unfold Transaction.consensus_decode
    rw [h1]
    simp only [ok_bind]
    rw [h2]
    simp only [ok_bind, List.isEmpty_nil, if_true]
    rw [h3]
    simp only [ok_bind, if_neg hm]
  · intro ins ins2 outs s4 s5 s6 s7 lt hm h4 h5 h6 hwit h7
    subst hm
    unfold Transaction.consensus_decode
    rw [h1]
    simp only [ok_bind]
    rw [h2]
    simp only [ok_bind, List.isEmpty_nil, if_true]
    rw [h3]
    simp only [ok_bind]
    simp only [if_true]
    rw [h4]
    simp only [ok_bind]
    rw [h5]
    simp only [ok_bind]
    rw [h6]
    simp only [ok_bind]
    have hcond : ¬(¬ins2.isEmpty = true ∧ (ins2.all fun i => i.witness.is_empty) = true) := by
      intro hc
      rw [hwit] at hc
      exact Bool.false_ne_true hc.2
    rw [if_neg hcond]
    rw [h7]
    simp only [ok_bind, pure_ok]

/-- Real input of the C6 witness stream, carrying a one-entry witness
stack after assignment. -/
def c6In : TxIn :=
  { previous_txid := ⟨List.replicate 32 0⟩, previous_vout := 0,
    script_sig := "", sequence := 0, witness := ⟨[[171]]⟩ }

/-- Segwit stream with one real input and a one-entry witness stack. -/
def c6Stream : List Nat :=
  [1, 0, 0, 0, 0, 1, 1] ++ List.replicate 32 0 ++
  [0, 0, 0, 0, 0, 0, 0, 0, 0, 0, 1, 1, 171, 9, 0, 0, 0]

/-- Witness for C6: marker 2 fails with `UnsupportedSegwitFlag 2`, and a
concrete marker-1 stream with a non-empty witness decodes successfully. -/
theorem c6_segwit_marker_witness :
    Transaction.consensus_decode [1, 0, 0, 0, 0, 2] =
      .error (.unsupportedSegwitFlag 2) ∧
    Transaction.consensus_decode c6Stream =
      .ok ({ version := 1, inputs := [c6In], outputs := [], lock_time := 9 }, []) :=
  ⟨(c6_segwit_marker [1, 0, 0, 0, 0, 2] [0, 2] [2] [] 1 2
      (by decide) (by decide) (by decide)).1 (by decide),
   (c6_segwit_marker c6Stream
      ([0, 1, 1] ++ List.replicate 32 0 ++ [0, 0, 0, 0, 0, 0, 0, 0, 0, 0, 1, 1, 171, 9, 0, 0, 0])
      ([1, 1] ++ List.replicate 32 0 ++ [0, 0, 0, 0, 0, 0, 0, 0, 0, 0, 1, 1, 171, 9, 0, 0, 0])
      ([1] ++ List.replicate 32 0 ++ [0, 0, 0, 0, 0, 0, 0, 0, 0, 0, 1, 1, 171, 9, 0, 0, 0])
      1 1 (by decide) (by decide) (by decide)).2
    [{ c6In with witness := Witness.new }] [c6In] [] [0, 1, 1, 171, 9, 0, 0, 0]
    [1, 1, 171, 9, 0, 0, 0] [9, 0, 0, 0] [] 9
    rfl (by decide) (by decide) (by decide) (by decide) (by decide)⟩

/-! ## Scripts produced by decoding are valid hex -/

/-- An input whose script text hex-decodes, so its encoding cannot hit
the `expect` panic of `Encodable for String`. -/
def HexOkIn (i : TxIn) : Prop := (hexDecode i.script_sig).isSome = true

/-- An output whose script text hex-decodes. -/
def HexOkOut (o : TxOut) : Prop := (hexDecode o.script_pubkey).isSome = true

/-- Every string the script decoder produces is decodable hex: it is the
`hexEncode` image of the bytes it read. -/
theorem decodeString_hexOk (s : ByteStream) (str : String) (r : ByteStream)
    (h : decodeString s = .ok (str, r)) : (hexDecode str).isSome = true := by
  unfold decodeString at h
  cases h1 : decodeCompactSize s with
  | error e => rw [h1] at h; exact absurd h (by simp [error_bind])
  | ok p1 =>
    obtain ⟨len, s2⟩ := p1
    rw [h1] at h
    simp only [ok_bind] at h
    cases h2 : read_exact len s2 with
    | error e => rw [h2] at h; exact absurd h (by simp [error_bind])
    | ok p2 =>
      obtain ⟨buf, s3⟩ := p2
      rw [h2] at h
      simp only [ok_bind, pure_ok, Except.ok.injEq, Prod.mk.injEq] at h
      rw [← h.1, hexDecode_hexEncode]
      rfl

/-- Every input the input decoder produces has decodable script text. -/
theorem decodeTxIn_hexOk (s : ByteStream) (i : TxIn) (r : ByteStream)
    (h : decodeTxIn s = .ok (i, r)) : HexOkIn i := by
  unfold decodeTxIn at h
  cases h1 : decodeTxid s with
  | error e => rw [h1] at h; exact absurd h (by simp [error_bind])
  | ok p1 =>
    obtain ⟨id, s1⟩ := p1
    rw [h1] at h
    simp only [ok_bind] at h
    cases h2 : decodeU32 s1 with
    | error e => rw [h2] at h; exact absurd h (by simp [error_bind])
    | ok p2 =>
      obtain ⟨vout, s2⟩ := p2
      rw [h2] at h
      simp only [ok_bind] at h
      cases h3 : decodeString s2 with
      | error e => rw [h3] at h; exact absurd h (by simp [error_bind])
      | ok p3 =>
        obtain ⟨str, s3⟩ := p3
        rw [h3] at h
        simp only [ok_bind] at h
        cases h4 : decodeU32 s3 with
        | error e => rw [h4] at h; exact absurd h (by simp [error_bind])
        | ok p4 =>
          obtain ⟨seq, s4⟩ := p4
          rw [h4] at h
          simp only [ok_bind, pure_ok, Except.ok.injEq, Prod.mk.injEq] at h
          have hs := decodeString_hexOk s2 str s3 h3
          rw [← h.1]
          exact hs

/-- Every output the output decoder produces has decodable script
text. -/
theorem decodeTxOut_hexOk (s : ByteStream) (o : TxOut) (r : ByteStream)
    (h : decodeTxOut s = .ok (o, r)) : HexOkOut o := by
  unfold decodeTxOut at h
  cases h1 : decodeU64 s with
  | error e => rw [h1] at h; exact absurd h (by simp [error_bind])
  | ok p1 =>
    obtain ⟨amt, s1⟩ := p1
    rw [h1] at h
    simp only [ok_bind] at h
    cases h2 : decodeString s1 with
    | error e => rw [h2] at h; exact absurd h (by simp [error_bind])
    | ok p2 =>
      obtain ⟨str, s2⟩ := p2
      rw [h2] at h
      simp only [ok_bind, pure_ok, Except.ok.injEq, Prod.mk.injEq] at h
      have hs := decodeString_hexOk s1 str s2 h2
      rw [← h.1]
      exact hs

/-- A property preserved by the item decoder holds of every element the
counted decoder returns. -/
theorem decodeCount_all {α : Type} (dec : ByteStream → Except Error (α × ByteStream))
    (P : α → Prop) (hdec : ∀ s a r, dec s = .ok (a, r) → P a) :
    ∀ (n : Nat) (s : ByteStream) (l : List α) (r : ByteStream),
      decodeCount dec n s = .ok (l, r) → ∀ a ∈ l, P a := by
  intro n
  induction n with
  | zero =>
    intro s l r h a ha
    unfold decodeCount at h
    simp only [Except.ok.injEq, Prod.mk.injEq] at h
    rw [← h.1] at ha
    cases ha
  | succ n ih =>
    intro s l r h a ha
    unfold decodeCount at h
    cases h1 : dec s with
    | error e => rw [h1] at h; exact absurd h (by simp [error_bind])
    | ok p1 =>
      obtain ⟨a0, s1⟩ := p1
      rw [h1] at h
      simp only [ok_bind] at h
      cases h2 : decodeCount dec n s1 with
      | error e => rw [h2] at h; exact absurd h (by simp [error_bind])
      | ok p2 =>
        obtain ⟨rest, r2⟩ := p2
        rw [h2] at h
        simp only [ok_bind, pure_ok, Except.ok.injEq, Prod.mk.injEq] at h
        rw [← h.1] at ha
        rcases List.mem_cons.mp ha with hh | hh
        · rw [hh]; exact hdec s a0 s1 h1
        · exact ih s1 rest r2 h2 a hh

/-- Every input the input sequence decoder produces has decodable
script text. -/
theorem decodeVecTxIn_hexOk (s : ByteStream) (l : List TxIn) (r : ByteStream)
    (h : decodeVecTxIn s = .ok (l, r)) : ∀ i ∈ l, HexOkIn i := by
  unfold decodeVecTxIn at h
  cases h1 : decodeCompactSize s with
  | error e => rw [h1] at h; exact absurd h (by simp [error_bind])
  | ok p1 =>
    obtain ⟨len, s1⟩ := p1
    rw [h1] at h
    simp only [ok_bind] at h
    exact decodeCount_all decodeTxIn HexOkIn
      (fun s2 a r2 ha => decodeTxIn_hexOk s2 a r2 ha) len s1 l r h

/-- Every output the output sequence decoder produces has decodable
script text. -/
theorem decodeVecTxOut_hexOk (s : ByteStream) (l : List TxOut) (r : ByteStream)
    (h : decodeVecTxOut s = .ok (l, r)) : ∀ o ∈ l, HexOkOut o := by
  unfold decodeVecTxOut at h
  cases h1 : decodeCompactSize s with
  | error e => rw [h1] at h; exact absurd h (by simp [error_bind])
  | ok p1 =>
    obtain ⟨len, s1⟩ := p1
    rw [h1] at h
    simp only [ok_bind] at h
    exact decodeCount_all decodeTxOut HexOkOut
      (fun s2 a r2 ha => decodeTxOut_hexOk s2 a r2 ha) len s1 l r h

/-- The witness-filling loop keeps every script text decodable: it only
replaces witness fields. -/
theorem assignWitnesses_hexOk (l : List TxIn) (s : ByteStream) (l2 : List TxIn)
    (r : ByteStream) (h : assignWitnesses l s = .ok (l2, r))
    (hl : ∀ i ∈ l, HexOkIn i) : ∀ i ∈ l2, HexOkIn i := by
  induction l generalizing s l2 r with
  | nil =>
    unfold assignWitnesses at h
    simp only [Except.ok.injEq, Prod.mk.injEq] at h
    intro i hi
    rw [← h.1] at hi
    cases hi
  | cons a rest ih =>
    unfold assignWitnesses at h
    cases h1 : decodeWitness s with
    | error e => rw [h1] at h; exact absurd h (by simp [error_bind])
    | ok p1 =>
      obtain ⟨w, s1⟩ := p1
      rw [h1] at h
      simp only [ok_bind] at h
      cases h2 : assignWitnesses rest s1 with
      | error e => rw [h2] at h; exact absurd h (by simp [error_bind])
      | ok p2 =>
        obtain ⟨rest2, r2⟩ := p2
        rw [h2] at h
        simp only [ok_bind, pure_ok, Except.ok.injEq, Prod.mk.injEq] at h
        intro i hi
        rw [← h.1] at hi
        rcases List.mem_cons.mp hi with hh | hh
        · rw [hh]
          exact hl a (by simp)
        · exact ih s1 rest2 r2 h2 (fun x hx => hl x (by simp [hx])) i hh

/-- Every transaction the record decoder produces has decodable script
text in all inputs and outputs. -/
theorem decode_tx_scripts_ok (s : ByteStream) (t : Transaction) (r : ByteStream)
    (h : Transaction.consensus_decode s = .ok (t, r)) :
    (∀ i ∈ t.inputs, HexOkIn i) ∧ (∀ o ∈ t.outputs, HexOkOut o) := by
  unfold Transaction.consensus_decode at h
  cases h1 : decodeU32 s with
  | error e => rw [h1] at h; exact absurd h (by simp [error_bind])
  | ok p1 =>
    obtain ⟨v, s1⟩ := p1
    rw [h1] at h
    simp only [ok_bind] at h
    cases h2 : decodeVecTxIn s1 with
    | error e => rw [h2] at h; exact absurd h (by simp [error_bind])
    | ok p2 =>
      obtain ⟨ins0, s2⟩ := p2
      rw [h2] at h
      simp only [ok_bind] at h
      by_cases hemp : ins0.isEmpty = true
      · rw [if_pos hemp] at h
        cases h3 : decodeU8 s2 with
        | error e => rw [h3] at h; exact absurd h (by simp [error_bind])
        | ok p3 =>
          obtain ⟨m, s3⟩ := p3
          rw [h3] at h
          simp only [ok_bind] at h
          by_cases hm : m = 1
          · rw [if_pos hm] at h
            cases h4 : decodeVecTxIn s3 with
            | error e => rw [h4] at h; exact absurd h (by simp [error_bind])
            | ok p4 =>
              obtain ⟨ins, s4⟩ := p4
              rw [h4] at h
              simp only [ok_bind] at h
              cases h5 : decodeVecTxOut s4 with
              | error e => rw [h5] at h; exact absurd h (by simp [error_bind])
              | ok p5 =>
                obtain ⟨outs, s5⟩ := p5
                rw [h5] at h
                simp only [ok_bind] at h
                cases h6 : assignWitnesses ins s5 with
                | error e => rw [h6] at h; exact absurd h (by simp [error_bind])
                | ok p6 =>
                  obtain ⟨ins2, s6⟩ := p6
                  rw [h6] at h
                  simp only [ok_bind] at h
                  by_cases hcond : ¬ins2.isEmpty = true ∧
                      (ins2.all fun i => i.witness.is_empty) = true
                  · rw [if_pos hcond] at h
                    cases h
                  · rw [if_neg hcond] at h
                    cases h7 : decodeU32 s6 with
                    | error e => rw [h7] at h; exact absurd h (by simp [error_bind])
                    | ok p7 =>
                      obtain ⟨lt, s7⟩ := p7
                      rw [h7] at h
                      simp only [ok_bind, pure_ok, Except.ok.injEq, Prod.mk.injEq] at h
                      rw [← h.1]
                      exact ⟨assignWitnesses_hexOk ins s5 ins2 s6 h6
                              (decodeVecTxIn_hexOk s3 ins s4 h4),
                             decodeVecTxOut_hexOk s4 outs s5 h5⟩
          · rw [if_neg hm] at h
            cases h
      · rw [if_neg hemp] at h
        cases h5 : decodeVecTxOut s2 with
        | error e => rw [h5] at h; exact absurd h (by simp [error_bind])
        | ok p5 =>
          obtain ⟨outs, s5⟩ := p5
          rw [h5] at h
          simp only [ok_bind] at h
          cases h7 : decodeU32 s5 with
          | error e => rw [h7] at h; exact absurd h (by simp [error_bind])
          | ok p7 =>
            obtain ⟨lt, s7⟩ := p7
            rw [h7] at h
            simp only [ok_bind, pure_ok, Except.ok.injEq, Prod.mk.injEq] at h
            rw [← h.1]
            exact ⟨decodeVecTxIn_hexOk s1 ins0 s2 h2,
                   decodeVecTxOut_hexOk s2 outs s5 h5⟩

/-- List encoding succeeds when every item encoding does. -/
theorem encodeList_isSome {α : Type} (enc : α → Option (List Nat)) (l : List α)
    (h : ∀ a ∈ l, (enc a).isSome = true) : (encodeList enc l).isSome = true := by
  induction l with
  | nil => rfl
  | cons a rest ih =>
    unfold encodeList
    cases ha : enc a with
    | none => exact absurd (ha ▸ h a (by simp)) (by simp)
    | some b =>
      cases hrest : encodeList enc rest with
      | none =>
        exact absurd (hrest ▸ ih (fun x hx => h x (by simp [hx]))) (by simp)
      | some bs => rfl

/-- An input with decodable script text encodes successfully. -/
theorem txin_encode_isSome (i : TxIn) (h : HexOkIn i) :
    (i.consensus_encode).isSome = true := by
  unfold TxIn.consensus_encode encodeString
  unfold HexOkIn at h
  cases hd : hexDecode i.script_sig with
  | none => rw [hd] at h; exact absurd h (by simp)
  | some bs => rfl

/-- An output with decodable script text encodes successfully. -/
theorem txout_encode_isSome (o : TxOut) (h : HexOkOut o) :
    (o.consensus_encode).isSome = true := by
  unfold TxOut.consensus_encode encodeString
  unfold HexOkOut at h
  cases hd : hexDecode o.script_pubkey with
  | none => rw [hd] at h; exact absurd h (by simp)
  | some bs => rfl

/-- C10: for every transaction returned by `Transaction::consensus_decode`,
the `txid` path cannot panic: every decoded script field is the
`hex::encode` image of a byte string, so the `expect` in
`Encodable for String` always receives valid hex, and writes into the
in-memory buffer (pure list concatenation here) cannot fail, so the
legacy re-encoding and the txid are always produced. -/
theorem c10_decoded_txid_total (s : ByteStream) (t : Transaction) (r : ByteStream)
    (h : Transaction.consensus_decode s = .ok (t, r)) :
    (t.txid).isSome = true := by
  obtain ⟨hins, houts⟩ := decode_tx_scripts_ok s t r h
  have hi : (encodeList TxIn.consensus_encode t.inputs).isSome = true :=
    encodeList_isSome _ _ (fun a ha => txin_encode_isSome a (hins a ha))
  have ho : (encodeList TxOut.consensus_encode t.outputs).isSome = true :=
    encodeList_isSome _ _ (fun a ha => txout_encode_isSome a (houts a ha))
  unfold Transaction.txid Transaction.txid_data encodeVecTxIn encodeVecTxOut
  cases hbi : encodeList TxIn.consensus_encode t.inputs with
  | none => rw [hbi] at hi; exact absurd hi (by simp)
  | some ins =>
    cases hbo : encodeList TxOut.consensus_encode t.outputs with
    | none => rw [hbo] at ho; exact absurd ho (by simp)
    | some outs => rfl

/-- Witness for C10: a concrete decoded transaction has a txid. -/
theorem c10_decoded_txid_total_witness :
    Transaction.consensus_decode c1WitnessBytes = .ok (c1WitnessTx, []) ∧
    (c1WitnessTx.txid).isSome = true :=
  ⟨by decide, c10_decoded_txid_total c1WitnessBytes c1WitnessTx [] (by decide)⟩

end BitcoinTx
